import Mathlib

/-!
# A verification development of the `cosmic-settings` page model

Shallow embedding of `src/page/model.rs`: the `Model` aggregate (page and
section registries, type-erased resource and per-page data stores, hierarchy
and content maps), the `Insert` builder cursor, and the lazy `SearchIter`.

Modelling conventions:
* The `slotmap` slot maps are modelled as append-only lists, because no
  operation of this core ever removes a page or a section: an entity is its
  slot index, and it is live iff the index is below the list length.
* `TypeId` is modelled as a natural number, and a `Box<dyn Any>` as a pair
  of its dynamic type-id and a natural-number payload; a downcast to type-id
  `t` succeeds exactly when the stored type-id is `t`.
* `HashMap`, `SecondaryMap` and `SparseSecondaryMap` are modelled as
  association lists in insertion order (iteration order of the sparse
  content map is implementation-defined in the source; the list order is the
  deterministic choice made here).
* A regex is modelled as the predicate it induces on a section's text.
-/

namespace Cosmic

/-- Page metadata. Modelled from the spec: the `Meta` type lives in the
`page` module, which is not among the provided sources; per spec §3 it holds
a human-facing title and description, an icon reference, and an optional
parent-page reference. -/
structure Meta where
  title : String
  description : String
  icon : String
  parent : Option Nat
  deriving DecidableEq

/-- A searchable content section. Modelled from the spec: §3 "holds enough
text to test against a search pattern". -/
structure Section where
  text : String
  deriving DecidableEq

/-- A search pattern: the caller-supplied regex modelled as the predicate it
induces on a section's text (matching semantics are fully delegated to the
pattern, spec §4.5). -/
abbrev Pattern := String → Bool

/-- `Section::matches_search`. Modelled from the spec: applies the
caller-supplied pattern to the section's text. -/
def Section.matches_search (s : Section) (rule : Pattern) : Bool := rule s.text

/-- A type-erased boxed value (`Box<dyn Any>`): its dynamic type-id and a
payload. -/
structure AnyVal where
  tyid : Nat
  val : Nat
  deriving DecidableEq

/-- `downcast_ref` / `downcast_mut` to the type with type-id `t`. -/
def downcast (t : Nat) (b : AnyVal) : Option Nat :=
  if b.tyid = t then some b.val else none

/-- Keyed lookup in an association list. -/
def alookup {V : Type} (k : Nat) : List (Nat × V) → Option V
  | [] => none
  | (k', v) :: rest => if k' = k then some v else alookup k rest

/-- Insert-or-replace in an association list: replaces in place if the key
is present, appends otherwise. -/
def alistInsert {V : Type} (k : Nat) (v : V) : List (Nat × V) → List (Nat × V)
  | [] => [(k, v)]
  | (k', v') :: rest =>
    if k' = k then (k, v) :: rest else (k', v') :: alistInsert k v rest

/-- Remove a key from an association list. -/
def alistRemove {V : Type} (k : Nat) : List (Nat × V) → List (Nat × V)
  | [] => []
  | (k', v) :: rest => if k' = k then rest else (k', v) :: alistRemove k rest

/-- The page model (`Model` in `src/page/model.rs`). The source fields
`resource`, `sub_pages` and `content` are named `resource_map`,
`sub_page_map` and `content_map` here so that the accessor methods can keep
their source names. -/
structure Model where
  pages : List Meta
  resource_map : List (Nat × AnyVal)
  storage : List (Nat × List (Nat × AnyVal))
  sub_page_map : List (Nat × List Nat)
  sections : List Section
  content_map : List (Nat × List Nat)
  deriving DecidableEq

/-- `Model::default`. -/
def Model.default : Model := ⟨[], [], [], [], [], []⟩

/-- `Model::contains_item`: check if a page exists in the model. -/
def Model.contains_item (m : Model) (id : Nat) : Bool :=
  decide (id < m.pages.length)

/-- `Model::content`: the content of a page, if it has any. -/
def Model.content (m : Model) (page : Nat) : Option (List Nat) :=
  alookup page m.content_map

/-- `Model::data` for the data type with type-id `tid`. -/
def Model.data (m : Model) (tid id : Nat) : Option Nat :=
  ((alookup tid m.storage).bind (fun st => alookup id st)).bind (downcast tid)

/-- `Model::data_mut`: gives mutable access to the same value `data`
returns. -/
def Model.data_mut (m : Model) (tid id : Nat) : Option Nat :=
  ((alookup tid m.storage).bind (fun st => alookup id st)).bind (downcast tid)

/-- `Model::data_set`: associates data with the item, guarded by
`contains_item`. -/
def Model.data_set (m : Model) (tid id v : Nat) : Model :=
  if m.contains_item id then
    let inner := alistInsert id ⟨tid, v⟩ ((alookup tid m.storage).getD [])
    { m with storage := alistInsert tid inner m.storage }
  else m

/-- `Model::data_remove`: removes a specific data type from the item. -/
def Model.data_remove (m : Model) (tid id : Nat) : Model :=
  match alookup tid m.storage with
  | some st => { m with storage := alistInsert tid (alistRemove id st) m.storage }
  | none => m

/-- `Model::resource`. -/
def Model.resource (m : Model) (tid : Nat) : Option Nat :=
  (alookup tid m.resource_map).bind (downcast tid)

/-- `Model::resource_mut`: the value a caller would get mutable access to. -/
def Model.resource_mut (m : Model) (tid : Nat) : Option Nat :=
  (alookup tid m.resource_map).bind (downcast tid)

/-- Writing `v` through the reference returned by `resource_mut`, when it
returns one; when `resource_mut` returns nothing, nothing is written. -/
def Model.resource_mut_set (m : Model) (tid v : Nat) : Model :=
  match alookup tid m.resource_map with
  | some b =>
    if b.tyid = tid then
      { m with resource_map := alistInsert tid ⟨tid, v⟩ m.resource_map }
    else m
  | none => m

/-- `Model::resource_register` for type-id `tid`, whose default-constructed
value is `d`: inserts iff no value for the type-id is present. -/
def Model.resource_register (m : Model) (tid d : Nat) : Model :=
  match alookup tid m.resource_map with
  | some _ => m
  | none => { m with resource_map := alistInsert tid ⟨tid, d⟩ m.resource_map }

/-- `Model::sub_pages`: the sub-pages of a page, if it has any. -/
def Model.sub_pages (m : Model) (page : Nat) : Option (List Nat) :=
  alookup page m.sub_page_map

/-- A page definition (a `P: Page` implementor). Modelled from the spec
(§6): it supplies metadata, an optional content-construction step that
freshly allocates the listed sections into the section registry, and a
default-constructible per-page model type identified by `modelTy` with
default value `modelDefault`. The `P::sub_pages` chaining hook is exercised
by applying `Insert.sub_page` explicitly, as the page definitions do. -/
structure PageDef where
  meta : Meta
  contentOf : Option (List Section)
  modelTy : Nat
  modelDefault : Nat
  deriving DecidableEq

/-- The hierarchical insert builder cursor (`Insert<'a>`); `Insert::id` is
the terminal accessor extracting the page entity. -/
structure Insert where
  model : Model
  id : Nat
  deriving DecidableEq

/-- `P::content(&mut sections)`: allocate a page definition's content
sections into the section registry, returning the updated registry and the
optional `Content` record (the freshly allocated section entities, in
order). -/
def contentAlloc (sections : List Section) :
    Option (List Section) → List Section × Option (List Nat)
  | none => (sections, none)
  | some secs => (sections ++ secs, some (List.range' sections.length secs.length))

/-- `Model::register`: registers a new page in the settings panel and
returns the insert cursor bound to it. -/
def Model.register (m : Model) (P : PageDef) : Insert :=
  let id := m.pages.length
  let sc := contentAlloc m.sections P.contentOf
  let content' :=
    match sc.2 with
    | some cids => alistInsert id cids m.content_map
    | none => m.content_map
  let m' := { m with pages := m.pages ++ [P.meta], sections := sc.1, content_map := content' }
  ⟨m'.resource_register P.modelTy P.modelDefault, id⟩

/-- The entity that a `sub_page` call on cursor `c` allocates for the
child. -/
def Insert.sub_page_child (c : Insert) : Nat := c.model.pages.length

/-- `Insert::sub_page`: adds a page and associates it with its parent page.
The child's `parent` is the cursor's entity, its content is allocated, its
resource type registered, and the child is appended to the cursor page's
hierarchy entry (created on first child). The returned cursor is `self`,
unchanged. -/
def Insert.sub_page (c : Insert) (P : PageDef) : Insert :=
  let m := c.model
  let page := m.pages.length
  let sc := contentAlloc m.sections P.contentOf
  let content' :=
    match sc.2 with
    | some cids => alistInsert page cids m.content_map
    | none => m.content_map
  let m' := { m with pages := m.pages ++ [{ P.meta with parent := some c.id }],
                     sections := sc.1, content_map := content' }
  let m'' := m'.resource_register P.modelTy P.modelDefault
  let sub' :=
    match alookup c.id m''.sub_page_map with
    | some v => alistInsert c.id (v ++ [page]) m''.sub_page_map
    | none => alistInsert c.id [page] m''.sub_page_map
  ⟨{ m'' with sub_page_map := sub' }, c.id⟩

/-- `Insert::content`: overwrites the current cursor's page's content
record. -/
def Insert.content (c : Insert) (cont : List Nat) : Insert :=
  ⟨{ c.model with content_map := alistInsert c.id cont c.model.content_map }, c.id⟩

/-- The search iterator state (`SearchIter`): the remaining outer content
iterator, the optional inner section iterator, and the current page. The
model and the pattern, immutable borrows in the source, are passed to
`next` explicitly. -/
structure SearchIter where
  content : List (Nat × List Nat)
  sections : Option (List Nat)
  page : Nat
  deriving DecidableEq

/-- `Model::search`: builds the iterator over the model's content map (the
initial `page` field is the source's `Entity::default()` placeholder,
modelled as `0`; it is overwritten before any pair is yielded). -/
def Model.search (m : Model) (_rule : Pattern) : SearchIter :=
  ⟨m.content_map, none, 0⟩

/-- The result of one `SearchIter::next` call: `panic` models the unchecked
index `self.model.sections[*id]` hitting a dead section entity. -/
inductive StepResult where
  | panic : StepResult
  | yield : Nat × Nat → SearchIter → StepResult
  | done : SearchIter → StepResult
  deriving DecidableEq

/-- The inner `for id in sections` loop of `SearchIter::next`: scan the
pending section ids. `none` is a panic on a dead section id, `some none`
is exhaustion without a match, and `some (some (pair, rest))` is a match
together with the remaining inner iterator. -/
def nextSections (m : Model) (rule : Pattern) (page : Nat) :
    List Nat → Option (Option ((Nat × Nat) × List Nat))
  | [] => some none
  | id :: rest =>
    match m.sections[id]? with
    | none => none
    | some s =>
      if s.matches_search rule then some (some ((page, id), rest))
      else nextSections m rule page rest

/-- The outer loop of `SearchIter::next`: advance over the remaining
content entries, entering each page's section list in turn. -/
def nextFrom (m : Model) (rule : Pattern) (page : Nat) :
    List (Nat × List Nat) → StepResult
  | [] => .done ⟨[], none, page⟩
  | (pg, cont) :: rest =>
    match nextSections m rule pg cont with
    | none => .panic
    | some (some (item, restSecs)) => .yield item ⟨rest, some restSecs, pg⟩
    | some none => nextFrom m rule pg rest

/-- `SearchIter::next`. -/
def SearchIter.next (m : Model) (rule : Pattern) (st : SearchIter) : StepResult :=
  match st.sections with
  | some ids =>
    match nextSections m rule st.page ids with
    | none => .panic
    | some (some (item, restSecs)) => .yield item ⟨st.content, some restSecs, st.page⟩
    | some none => nextFrom m rule st.page st.content
  | none => nextFrom m rule st.page st.content

/-- The state after one `next` call (a panic leaves the state unchanged). -/
def SearchIter.advance (m : Model) (rule : Pattern) (st : SearchIter) : SearchIter :=
  match SearchIter.next m rule st with
  | .yield _ st' => st'
  | .done st' => st'
  | .panic => st

/-- Drive the iterator, collecting the yielded pairs (fuel-bounded; a panic
or exhaustion stops the drain). -/
def drainFuel (m : Model) (rule : Pattern) : Nat → SearchIter → List (Nat × Nat)
  | 0, _ => []
  | fuel + 1, st =>
    match SearchIter.next m rule st with
    | .yield item st' => item :: drainFuel m rule fuel st'
    | _ => []

/-- Drive the iterator and report whether it ran to exhaustion with no
panic within the given fuel. -/
def drainTotal (m : Model) (rule : Pattern) : Nat → SearchIter → Bool
  | 0, _ => true
  | fuel + 1, st =>
    match SearchIter.next m rule st with
    | .panic => false
    | .yield _ st' => drainTotal m rule fuel st'
    | .done _ => true

/-- A fuel measure that strictly decreases at every yielded pair. -/
def SearchIter.size (st : SearchIter) : Nat :=
  (st.sections.getD []).length + (st.content.map (fun pc => pc.2.length + 1)).sum

/-- Fully drain the iterator produced by `Model::search`. -/
def Model.searchDrain (m : Model) (rule : Pattern) : List (Nat × Nat) :=
  drainFuel m rule ((m.search rule).size + 1) (m.search rule)

/-- Does a section id denote a live section whose text matches the
pattern? -/
def sectionMatches (m : Model) (rule : Pattern) (id : Nat) : Bool :=
  ((m.sections[id]?).map (fun s => s.matches_search rule)).getD false

/-- The pairs a single content entry contributes to a search. -/
def matchedPairs (m : Model) (rule : Pattern) (pg : Nat) (ids : List Nat) :
    List (Nat × Nat) :=
  (ids.filter (sectionMatches m rule)).map (fun id => (pg, id))

/-- All pairs contributed by a list of content entries, in order. -/
def specList (m : Model) (rule : Pattern) : List (Nat × List Nat) → List (Nat × Nat)
  | [] => []
  | (pg, cont) :: rest => matchedPairs m rule pg cont ++ specList m rule rest

/-- The pairs the iterator should still produce from a given state. -/
def specFrom (m : Model) (rule : Pattern) (st : SearchIter) : List (Nat × Nat) :=
  matchedPairs m rule st.page (st.sections.getD []) ++ specList m rule st.content

/-- The search specification: for each page holding a content record, in
content-map order, the pairs for exactly its sections whose text matches
the pattern. -/
def searchSpec (m : Model) (rule : Pattern) : List (Nat × Nat) :=
  specList m rule m.content_map

/-- Liveness of every section id reachable from an iterator state. -/
def IterInv (m : Model) (st : SearchIter) : Prop :=
  (∀ id ∈ st.sections.getD [], id < m.sections.length) ∧
  (∀ pc ∈ st.content, ∀ id ∈ pc.2, id < m.sections.length)

/-- The model invariant of the search: every section entity stored in any
content record is live in the sections registry. -/
def ModelInv (m : Model) : Prop :=
  ∀ pc ∈ m.content_map, ∀ id ∈ pc.2, id < m.sections.length

/-- Models reachable through the construction operations of the core:
`Model::default`, `register`, `sub_page`, and `Insert::content` restricted
to live (freshly allocated) sections. -/
inductive Built : Model → Prop
  | base : Built Model.default
  | reg (m : Model) (P : PageDef) : Built m → Built (m.register P).model
  | sub (m : Model) (i : Nat) (P : PageDef) : Built m →
      Built (Insert.sub_page ⟨m, i⟩ P).model
  | cont (m : Model) (i : Nat) (c : List Nat) : Built m →
      (∀ s ∈ c, s < m.sections.length) → Built (Insert.content ⟨m, i⟩ c).model

/-- Well-formedness of the keyed stores: every page key occurring in the
per-page data stores, the content map or the hierarchy map is a live page
entity. -/
def KeysWF (m : Model) : Prop :=
  (∀ ts ∈ m.storage, ∀ p ∈ ts.2, p.1 < m.pages.length) ∧
  (∀ pc ∈ m.content_map, pc.1 < m.pages.length) ∧
  (∀ pc ∈ m.sub_page_map, pc.1 < m.pages.length)

/-! ## Association-list lemmas -/

theorem alookup_alistInsert_self {V : Type} (k : Nat) (v : V) (l : List (Nat × V)) :
    alookup k (alistInsert k v l) = some v := by
  induction l with
  | nil => simp [alistInsert, alookup]
  | cons p rest ih =>
    obtain ⟨k', v'⟩ := p
    by_cases h : k' = k
    · simp [alistInsert, alookup, h]
    · simp [alistInsert, alookup, h, ih]

theorem alookup_alistInsert_ne {V : Type} {k k' : Nat} (h : k ≠ k') (v : V)
    (l : List (Nat × V)) : alookup k' (alistInsert k v l) = alookup k' l := by
  induction l with
  | nil => simp [alistInsert, alookup, h]
  | cons p rest ih =>
    obtain ⟨k₁, v₁⟩ := p
    by_cases hk : k₁ = k
    · subst hk
      simp [alistInsert, alookup, h]
    · simp [alistInsert, alookup, hk, ih]

theorem mem_alistInsert {V : Type} {pc : Nat × V} {k : Nat} {v : V}
    {l : List (Nat × V)} (h : pc ∈ alistInsert k v l) : pc = (k, v) ∨ pc ∈ l := by
  induction l with
  | nil => simpa [alistInsert] using h
  | cons p rest ih =>
    obtain ⟨k₁, v₁⟩ := p
    by_cases hk : k₁ = k
    · simp only [alistInsert, hk, if_pos rfl] at h
      rcases List.mem_cons.1 h with h | h
      · exact Or.inl h
      · exact Or.inr (List.mem_cons_of_mem _ h)
    · simp only [alistInsert, hk, if_neg hk] at h
      rcases List.mem_cons.1 h with h | h
      · exact Or.inr (h ▸ List.mem_cons_self _ _)
      · rcases ih h with h | h
        · exact Or.inl h
        · exact Or.inr (List.mem_cons_of_mem _ h)

theorem alookup_none_of_keys_lt {V : Type} {l : List (Nat × V)} {n id : Nat}
    (hk : ∀ p ∈ l, p.1 < n) (hid : n ≤ id) : alookup id l = none := by
  induction l with
  | nil => rfl
  | cons p rest ih =>
    obtain ⟨k₁, v₁⟩ := p
    have h1 : k₁ < n := hk _ (List.mem_cons_self _ _)
    have hne : k₁ ≠ id := by omega
    simp only [alookup, if_neg hne]
    exact ih (fun p hp => hk p (List.mem_cons_of_mem _ hp))

/-! ## List-indexing and `range'` helpers -/

theorem listGet?_append_lt {α : Type} :
    ∀ (l₁ l₂ : List α) (i : Nat), i < l₁.length → (l₁ ++ l₂)[i]? = l₁[i]?
  | [], _, i, h => absurd h (by simp)
  | a :: l₁, l₂, 0, _ => by simp
  | a :: l₁, l₂, i + 1, h => by
    simpa using listGet?_append_lt l₁ l₂ i (by simpa using h)

theorem listGet?_append_len {α : Type} :
    ∀ (l : List α) (a : α) (l₂ : List α), (l ++ a :: l₂)[l.length]? = some a
  | [], _, _ => by simp
  | _ :: l, a, l₂ => by simpa using listGet?_append_len l a l₂

theorem listGet?_two_appends {α : Type} (l : List α) (a b : α) :
    ((l ++ [a]) ++ [b])[l.length]? = some a := by
  rw [listGet?_append_lt (l ++ [a]) [b] l.length (by simp)]
  exact listGet?_append_len l a []

theorem listGet?_two_appends_snd {α : Type} (l : List α) (a b : α) :
    ((l ++ [a]) ++ [b])[(l ++ [a]).length]? = some b :=
  listGet?_append_len (l ++ [a]) b []

theorem lt_of_mem_range' : ∀ {n s x : Nat}, x ∈ List.range' s n → x < s + n
  | 0, _, _, h => absurd h (by simp [List.range'])
  | n + 1, s, x, h => by
    rcases List.mem_cons.1 h with h | h
    · omega
    · have := lt_of_mem_range' (s := s + 1) h
      omega

/-! ## Frame lemmas for `resource_register` -/

theorem resource_register_pages (m : Model) (t d : Nat) :
    (m.resource_register t d).pages = m.pages := by
  unfold Model.resource_register; split <;> rfl

theorem resource_register_sections (m : Model) (t d : Nat) :
    (m.resource_register t d).sections = m.sections := by
  unfold Model.resource_register; split <;> rfl

theorem resource_register_content_map (m : Model) (t d : Nat) :
    (m.resource_register t d).content_map = m.content_map := by
  unfold Model.resource_register; split <;> rfl

theorem resource_register_sub_page_map (m : Model) (t d : Nat) :
    (m.resource_register t d).sub_page_map = m.sub_page_map := by
  unfold Model.resource_register; split <;> rfl

theorem resource_register_storage (m : Model) (t d : Nat) :
    (m.resource_register t d).storage = m.storage := by
  unfold Model.resource_register; split <;> rfl

/-! ## Frame lemmas for `register` and `sub_page` -/

theorem register_id (m : Model) (P : PageDef) : (m.register P).id = m.pages.length := by
  unfold Model.register
  dsimp only

theorem register_model_pages (m : Model) (P : PageDef) :
    (m.register P).model.pages = m.pages ++ [P.meta] := by
  unfold Model.register
  cases hc : P.contentOf <;>
    simp [contentAlloc, resource_register_pages]

theorem register_model_sub_page_map (m : Model) (P : PageDef) :
    (m.register P).model.sub_page_map = m.sub_page_map := by
  unfold Model.register
  cases hc : P.contentOf <;>
    simp [contentAlloc, resource_register_sub_page_map]

theorem register_model_storage (m : Model) (P : PageDef) :
    (m.register P).model.storage = m.storage := by
  unfold Model.register
  cases hc : P.contentOf <;>
    simp [contentAlloc, resource_register_storage]

theorem sub_page_id (c : Insert) (P : PageDef) : (c.sub_page P).id = c.id := by
  unfold Insert.sub_page
  dsimp only

theorem sub_page_model_pages (c : Insert) (P : PageDef) :
    (c.sub_page P).model.pages
      = c.model.pages ++ [{ P.meta with parent := some c.id }] := by
  unfold Insert.sub_page
  cases hc : P.contentOf <;>
    simp [contentAlloc, resource_register_pages]

theorem sub_page_model_sub_page_map (c : Insert) (P : PageDef) :
    (c.sub_page P).model.sub_page_map
      = alistInsert c.id ((alookup c.id c.model.sub_page_map).getD []
          ++ [c.model.pages.length]) c.model.sub_page_map := by
  unfold Insert.sub_page
  cases hc : P.contentOf <;>
    cases hs : alookup c.id c.model.sub_page_map <;>
      simp [contentAlloc, resource_register_sub_page_map, hs]

/-! ## Lemmas about the inner section scan of `SearchIter::next` -/

theorem nextSections_ne_none {m : Model} {rule : Pattern} {pg : Nat}
    {ids : List Nat} (h : ∀ id ∈ ids, id < m.sections.length) :
    nextSections m rule pg ids ≠ none := by
  induction ids with
  | nil => simp [nextSections]
  | cons id rest ih =>
    have hid : id < m.sections.length := h id (List.mem_cons_self _ _)
    have hrest : ∀ x ∈ rest, x < m.sections.length :=
      fun x hx => h x (List.mem_cons_of_mem _ hx)
    have hsome := List.getElem?_eq_getElem hid
    simp only [nextSections, hsome]
    split
    · simp
    · exact ih hrest

theorem nextSections_eq_none_match {m : Model} {rule : Pattern} {pg : Nat}
    {ids : List Nat} (h : nextSections m rule pg ids = some none) :
    matchedPairs m rule pg ids = [] := by
  induction ids with
  | nil => simp [matchedPairs]
  | cons id rest ih =>
    simp only [nextSections] at h
    cases hs : m.sections[id]? with
    | none => rw [hs] at h; simp at h
    | some s =>
      simp only [hs] at h
      by_cases hm : s.matches_search rule = true
      · rw [if_pos hm] at h; exact absurd h (by simp)
      · rw [if_neg hm] at h
        have hsm : sectionMatches m rule id = false := by
          simp [sectionMatches, hs]
          simpa using hm
        have hrw : matchedPairs m rule pg (id :: rest) = matchedPairs m rule pg rest := by
          simp [matchedPairs, List.filter_cons, hsm]
        rw [hrw]
        exact ih h

theorem nextSections_eq_some {m : Model} {rule : Pattern} {pg : Nat}
    {ids rest : List Nat} {pr : Nat × Nat}
    (h : nextSections m rule pg ids = some (some (pr, rest))) :
    matchedPairs m rule pg ids = pr :: matchedPairs m rule pg rest
    ∧ rest.length < ids.length
    ∧ (∀ x ∈ rest, x ∈ ids) := by
  induction ids with
  | nil => simp [nextSections] at h
  | cons id tl ih =>
    simp only [nextSections] at h
    cases hs : m.sections[id]? with
    | none => rw [hs] at h; simp at h
    | some s =>
      simp only [hs] at h
      by_cases hm : s.matches_search rule = true
      · rw [if_pos hm] at h
        simp only [Option.some.injEq, Prod.mk.injEq] at h
        obtain ⟨hpr, hrest⟩ := h
        subst hpr
        subst hrest
        have hsm : sectionMatches m rule id = true := by
          simp [sectionMatches, hs, hm]
        refine ⟨?_, ?_, ?_⟩
        · simp [matchedPairs, List.filter_cons, hsm]
        · simp
        · exact fun x hx => List.mem_cons_of_mem _ hx
      · rw [if_neg hm] at h
        obtain ⟨e1, e2, e3⟩ := ih h
        have hsm : sectionMatches m rule id = false := by
          simp [sectionMatches, hs]
          simpa using hm
        refine ⟨?_, ?_, ?_⟩
        · have hrw : matchedPairs m rule pg (id :: tl) = matchedPairs m rule pg tl := by
            simp [matchedPairs, List.filter_cons, hsm]
          rw [hrw, e1]
        · simp; omega
        · exact fun x hx => List.mem_cons_of_mem _ (e3 x hx)

/-! ## Lemmas about the outer loop of `SearchIter::next` -/

theorem nextFrom_ne_panic {m : Model} {rule : Pattern} {pg : Nat}
    {cl : List (Nat × List Nat)}
    (h : ∀ pc ∈ cl, ∀ id ∈ pc.2, id < m.sections.length) :
    nextFrom m rule pg cl ≠ .panic := by
  induction cl generalizing pg with
  | nil => simp [nextFrom]
  | cons p rest ih =>
    obtain ⟨pgh, cont⟩ := p
    have hcont : ∀ id ∈ cont, id < m.sections.length :=
      h (pgh, cont) (List.mem_cons_self _ _)
    cases hns : nextSections m rule pgh cont with
    | none => exact absurd hns (nextSections_ne_none hcont)
    | some o =>
      cases o with
      | none =>
        simp only [nextFrom, hns]
        exact ih (fun pc hpc => h pc (List.mem_cons_of_mem _ hpc))
      | some x =>
        obtain ⟨pr, restS⟩ := x
        simp [nextFrom, hns]

theorem nextFrom_yield {m : Model} {rule : Pattern} {pg : Nat}
    {cl : List (Nat × List Nat)} {pr : Nat × Nat} {st' : SearchIter}
    (h : nextFrom m rule pg cl = .yield pr st') :
    specList m rule cl = pr :: specFrom m rule st'
    ∧ SearchIter.size st' < (cl.map (fun pc => pc.2.length + 1)).sum
    ∧ ((∀ pc ∈ cl, ∀ id ∈ pc.2, id < m.sections.length) → IterInv m st') := by
  induction cl generalizing pg with
  | nil => simp [nextFrom] at h
  | cons p rest ih =>
    obtain ⟨pgh, cont⟩ := p
    simp only [nextFrom] at h
    cases hns : nextSections m rule pgh cont with
    | none => rw [hns] at h; exact absurd h (by simp)
    | some o =>
      cases o with
      | some x =>
        obtain ⟨pr0, restS⟩ := x
        rw [hns] at h
        simp only at h
        injection h with h1 h2
        subst h1
        subst h2
        obtain ⟨e1, e2, e3⟩ := nextSections_eq_some hns
        refine ⟨?_, ?_, ?_⟩
        · simp only [specList, specFrom, e1]
          simp
        · simp only [SearchIter.size, List.map_cons, List.sum_cons,
            Option.getD_some]
          omega
        · intro hlc
          constructor
          · intro id hid
            simp only [Option.getD_some] at hid
            exact hlc (pgh, cont) (List.mem_cons_self _ _) id (e3 id hid)
          · intro pc hpc id hid
            exact hlc pc (List.mem_cons_of_mem _ hpc) id hid
      | none =>
        rw [hns] at h
        simp only at h
        obtain ⟨ih1, ih2, ih3⟩ := ih h
        have hmp : matchedPairs m rule pgh cont = [] := nextSections_eq_none_match hns
        refine ⟨?_, ?_, ?_⟩
        · simp only [specList, hmp, List.nil_append]
          exact ih1
        · simp only [List.map_cons, List.sum_cons]
          omega
        · exact fun hlc => ih3 (fun pc hpc => hlc pc (List.mem_cons_of_mem _ hpc))

theorem nextFrom_done {m : Model} {rule : Pattern} {pg : Nat}
    {cl : List (Nat × List Nat)} {st' : SearchIter}
    (h : nextFrom m rule pg cl = .done st') :
    specList m rule cl = [] ∧ st'.content = [] ∧ st'.sections = none := by
  induction cl generalizing pg with
  | nil =>
    simp only [nextFrom] at h
    injection h with h1
    subst h1
    simp [specList]
  | cons p rest ih =>
    obtain ⟨pgh, cont⟩ := p
    simp only [nextFrom] at h
    cases hns : nextSections m rule pgh cont with
    | none => rw [hns] at h; exact absurd h (by simp)
    | some o =>
      cases o with
      | some x =>
        obtain ⟨pr0, restS⟩ := x
        rw [hns] at h
        simp at h
      | none =>
        rw [hns] at h
        simp only at h
        obtain ⟨h1, h2, h3⟩ := ih h
        have hmp : matchedPairs m rule pgh cont = [] := nextSections_eq_none_match hns
        exact ⟨by simp [specList, hmp, h1], h2, h3⟩

/-! ## One-step characterization of `SearchIter::next` -/

theorem next_ne_panic {m : Model} {rule : Pattern} {st : SearchIter}
    (h : IterInv m st) : SearchIter.next m rule st ≠ .panic := by
  obtain ⟨h1, h2⟩ := h
  cases hsec : st.sections with
  | none =>
    simp only [SearchIter.next, hsec]
    exact nextFrom_ne_panic h2
  | some ids =>
    have hids : ∀ id ∈ ids, id < m.sections.length := by
      rw [hsec] at h1; simpa using h1
    simp only [SearchIter.next, hsec]
    cases hns : nextSections m rule st.page ids with
    | none => exact absurd hns (nextSections_ne_none hids)
    | some o =>
      cases o with
      | none =>
        simp only [hns]
        exact nextFrom_ne_panic h2
      | some x =>
        obtain ⟨pr, restS⟩ := x
        simp [hns]

theorem next_yield_spec {m : Model} {rule : Pattern} {st st' : SearchIter}
    {pr : Nat × Nat} (h : SearchIter.next m rule st = .yield pr st') :
    specFrom m rule st = pr :: specFrom m rule st'
    ∧ st'.size < st.size
    ∧ (IterInv m st → IterInv m st') := by
  cases hsec : st.sections with
  | none =>
    simp only [SearchIter.next, hsec] at h
    obtain ⟨h1, h2, h3⟩ := nextFrom_yield h
    refine ⟨?_, ?_, ?_⟩
    · calc specFrom m rule st = specList m rule st.content := by
            simp [specFrom, hsec, matchedPairs]
        _ = pr :: specFrom m rule st' := h1
    · have : st.size = (st.content.map (fun pc => pc.2.length + 1)).sum := by
        simp [SearchIter.size, hsec]
      omega
    · exact fun hI => h3 hI.2
  | some ids =>
    simp only [SearchIter.next, hsec] at h
    cases hns : nextSections m rule st.page ids with
    | none => rw [hns] at h; exact absurd h (by simp)
    | some o =>
      cases o with
      | some x =>
        obtain ⟨pr0, restS⟩ := x
        rw [hns] at h
        simp only at h
        injection h with h1 h2
        subst h1
        subst h2
        obtain ⟨e1, e2, e3⟩ := nextSections_eq_some hns
        refine ⟨?_, ?_, ?_⟩
        · calc specFrom m rule st
              = matchedPairs m rule st.page ids ++ specList m rule st.content := by
                simp [specFrom, hsec]
            _ = pr0 :: (matchedPairs m rule st.page restS ++ specList m rule st.content) := by
                rw [e1]; simp
            _ = pr0 :: specFrom m rule ⟨st.content, some restS, st.page⟩ := by
                simp [specFrom]
        · simp only [SearchIter.size, hsec, Option.getD_some]
          omega
        · intro hI
          obtain ⟨hI1, hI2⟩ := hI
          rw [hsec] at hI1
          simp only [Option.getD_some] at hI1
          constructor
          · intro id hid
            simp only [Option.getD_some] at hid
            exact hI1 id (e3 id hid)
          · exact hI2
      | none =>
        rw [hns] at h
        simp only at h
        obtain ⟨h1, h2, h3⟩ := nextFrom_yield h
        have hmp : matchedPairs m rule st.page ids = [] :=
          nextSections_eq_none_match hns
        refine ⟨?_, ?_, ?_⟩
        · calc specFrom m rule st
              = matchedPairs m rule st.page ids ++ specList m rule st.content := by
                simp [specFrom, hsec]
            _ = specList m rule st.content := by rw [hmp]; simp
            _ = pr :: specFrom m rule st' := h1
        · have : st.size = ids.length + (st.content.map (fun pc => pc.2.length + 1)).sum := by
            simp [SearchIter.size, hsec]
          omega
        · exact fun hI => h3 hI.2

theorem next_done_spec {m : Model} {rule : Pattern} {st st' : SearchIter}
    (h : SearchIter.next m rule st = .done st') :
    specFrom m rule st = [] ∧ st'.content = [] ∧ st'.sections = none := by
  cases hsec : st.sections with
  | none =>
    simp only [SearchIter.next, hsec] at h
    obtain ⟨h1, h2, h3⟩ := nextFrom_done h
    exact ⟨by simp [specFrom, hsec, matchedPairs, h1], h2, h3⟩
  | some ids =>
    simp only [SearchIter.next, hsec] at h
    cases hns : nextSections m rule st.page ids with
    | none => rw [hns] at h; exact absurd h (by simp)
    | some o =>
      cases o with
      | some x =>
        obtain ⟨pr0, restS⟩ := x
        rw [hns] at h
        simp at h
      | none =>
        rw [hns] at h
        simp only at h
        obtain ⟨h1, h2, h3⟩ := nextFrom_done h
        have hmp : matchedPairs m rule st.page ids = [] :=
          nextSections_eq_none_match hns
        exact ⟨by simp [specFrom, hsec, hmp, h1], h2, h3⟩

/-! ## Draining the iterator -/

theorem iterInv_search {m : Model} (h : ModelInv m) (rule : Pattern) :
    IterInv m (m.search rule) := by
  constructor
  · simp [Model.search]
  · exact h

theorem drainFuel_eq_specFrom {m : Model} {rule : Pattern} :
    ∀ (fuel : Nat) (st : SearchIter), IterInv m st → st.size < fuel →
      drainFuel m rule fuel st = specFrom m rule st := by
  intro fuel
  induction fuel with
  | zero => intro st _ h; omega
  | succ fuel ih =>
    intro st hI hsize
    cases hnext : SearchIter.next m rule st with
    | panic => exact absurd hnext (next_ne_panic hI)
    | yield pr st' =>
      obtain ⟨h1, h2, h3⟩ := next_yield_spec hnext
      have hstep : drainFuel m rule (fuel + 1) st = pr :: drainFuel m rule fuel st' := by
        simp [drainFuel, hnext]
      rw [hstep, h1, ih st' (h3 hI) (by omega)]
    | done st' =>
      obtain ⟨h1, _, _⟩ := next_done_spec hnext
      have hstep : drainFuel m rule (fuel + 1) st = [] := by
        simp [drainFuel, hnext]
      rw [hstep, h1]

theorem drainTotal_of_inv {m : Model} {rule : Pattern} :
    ∀ (fuel : Nat) (st : SearchIter), IterInv m st →
      drainTotal m rule fuel st = true := by
  intro fuel
  induction fuel with
  | zero => intro st _; rfl
  | succ fuel ih =>
    intro st hI
    cases hnext : SearchIter.next m rule st with
    | panic => exact absurd hnext (next_ne_panic hI)
    | yield pr st' =>
      have h3 := (next_yield_spec hnext).2.2
      have hstep : drainTotal m rule (fuel + 1) st = drainTotal m rule fuel st' := by
        simp [drainTotal, hnext]
      rw [hstep]
      exact ih st' (h3 hI)
    | done st' => simp [drainTotal, hnext]

/-! ## Content and section frame lemmas for the construction operations -/

theorem register_model_sections (m : Model) (P : PageDef) :
    (m.register P).model.sections = (contentAlloc m.sections P.contentOf).1 := by
  unfold Model.register
  cases hc : P.contentOf <;> simp [contentAlloc, resource_register_sections]

theorem register_content_map_none (m : Model) (P : PageDef)
    (hc : P.contentOf = none) :
    (m.register P).model.content_map = m.content_map := by
  unfold Model.register
  simp [hc, contentAlloc, resource_register_content_map]

theorem register_content_map_some (m : Model) (P : PageDef)
    (secs : List Section) (hc : P.contentOf = some secs) :
    (m.register P).model.content_map
      = alistInsert m.pages.length (List.range' m.sections.length secs.length)
          m.content_map := by
  unfold Model.register
  simp [hc, contentAlloc, resource_register_content_map]

theorem sub_page_model_sections (c : Insert) (P : PageDef) :
    (c.sub_page P).model.sections = (contentAlloc c.model.sections P.contentOf).1 := by
  unfold Insert.sub_page
  cases hc : P.contentOf <;> simp [contentAlloc, resource_register_sections]

theorem sub_page_content_map_none (c : Insert) (P : PageDef)
    (hc : P.contentOf = none) :
    (c.sub_page P).model.content_map = c.model.content_map := by
  unfold Insert.sub_page
  simp [hc, contentAlloc, resource_register_content_map]

theorem sub_page_content_map_some (c : Insert) (P : PageDef)
    (secs : List Section) (hc : P.contentOf = some secs) :
    (c.sub_page P).model.content_map
      = alistInsert c.model.pages.length
          (List.range' c.model.sections.length secs.length)
          c.model.content_map := by
  unfold Insert.sub_page
  simp [hc, contentAlloc, resource_register_content_map]

theorem mem_of_alookup_eq_some {V : Type} {k : Nat} {v : V} {l : List (Nat × V)}
    (h : alookup k l = some v) : (k, v) ∈ l := by
  induction l with
  | nil => simp [alookup] at h
  | cons p rest ih =>
    obtain ⟨k₁, v₁⟩ := p
    by_cases hk : k₁ = k
    · subst hk
      simp [alookup] at h
      subst h
      exact List.mem_cons_self _ _
    · simp only [alookup, if_neg hk] at h
      exact List.mem_cons_of_mem _ (ih h)

/-! ## Preservation of the search invariant by the construction operations -/

theorem modelInv_register (m : Model) (P : PageDef) (h : ModelInv m) :
    ModelInv (m.register P).model := by
  intro pc hpc id hid
  rw [register_model_sections]
  cases hc : P.contentOf with
  | none =>
    rw [register_content_map_none m P hc] at hpc
    simp only [hc, contentAlloc]
    exact h pc hpc id hid
  | some secs =>
    rw [register_content_map_some m P secs hc] at hpc
    simp only [hc, contentAlloc, List.length_append]
    rcases mem_alistInsert hpc with he | he
    · subst he
      simp only at hid
      have := lt_of_mem_range' hid
      omega
    · have := h pc he id hid
      omega

theorem modelInv_sub_page (c : Insert) (P : PageDef) (h : ModelInv c.model) :
    ModelInv (c.sub_page P).model := by
  intro pc hpc id hid
  rw [sub_page_model_sections]
  cases hc : P.contentOf with
  | none =>
    rw [sub_page_content_map_none c P hc] at hpc
    simp only [hc, contentAlloc]
    exact h pc hpc id hid
  | some secs =>
    rw [sub_page_content_map_some c P secs hc] at hpc
    simp only [hc, contentAlloc, List.length_append]
    rcases mem_alistInsert hpc with he | he
    · subst he
      simp only at hid
      have := lt_of_mem_range' hid
      omega
    · have := h pc he id hid
      omega

theorem modelInv_insert_content (c : Insert) (cont : List Nat)
    (hlive : ∀ s ∈ cont, s < c.model.sections.length) (h : ModelInv c.model) :
    ModelInv (c.content cont).model := by
  intro pc hpc id hid
  rcases mem_alistInsert hpc with he | he
  · subst he
    simp only at hid
    exact hlive id hid
  · exact h pc he id hid

theorem built_modelInv {m : Model} (h : Built m) : ModelInv m := by
  induction h with
  | base => intro pc hpc id hid; simp [Model.default] at hpc
  | reg m P hb ih => exact modelInv_register m P ih
  | sub m i P hb ih => exact modelInv_sub_page ⟨m, i⟩ P ih
  | cont m i c hb hlive ih => exact modelInv_insert_content ⟨m, i⟩ c hlive ih

/-! ## The exhausted iterator state is a fixpoint of `next` -/

theorem next_done_fix {m : Model} {rule : Pattern} {st st' : SearchIter}
    (h : SearchIter.next m rule st = .done st') :
    SearchIter.next m rule st' = .done st' := by
  obtain ⟨_, h2, h3⟩ := next_done_spec h
  obtain ⟨cl, secs, pg⟩ := st'
  simp only at h2 h3
  subst h2
  subst h3
  simp [SearchIter.next, nextFrom]

theorem advance_fixed_of_done {m : Model} {rule : Pattern} {st st' : SearchIter}
    (h : SearchIter.next m rule st = .done st') :
    SearchIter.advance m rule st' = st' := by
  have h2 := next_done_fix h
  simp [SearchIter.advance, h2]

/-! ## Concrete page definitions and models used as witnesses -/

/-- A minimal page definition with no content. -/
def P0 : PageDef := ⟨⟨"demo", "d", "icon", none⟩, none, 0, 0⟩

/-- Page definition P1: no content record at all. -/
def P1d : PageDef := ⟨⟨"p1", "", "icon1", none⟩, none, 1, 0⟩

/-- Page definition P2: sections "alpha" and "beta". -/
def P2d : PageDef := ⟨⟨"p2", "", "icon2", none⟩, some [⟨"alpha"⟩, ⟨"beta"⟩], 2, 0⟩

/-- Page definition P3: section "alphabet". -/
def P3d : PageDef := ⟨⟨"p3", "", "icon3", none⟩, some [⟨"alphabet"⟩], 3, 0⟩

/-- A concrete pattern standing for the regex `alpha` on this data set:
does the text begin with "alpha"? -/
def patAlpha : Pattern := fun s => ("alpha".data).isPrefixOf s.data

/-- The model of the spec's search example: P1 (no content, entity 0),
P2 (sections "alpha" = 0 and "beta" = 1, entity 1), and P3 (section
"alphabet" = 2, entity 2). -/
def exampleModel : Model :=
  (((Model.default.register P1d).model.register P2d).model.register P3d).model

/-! ## C1: what cursor does `sub_page` return? -/

/-- C1 (counterexample): after registering a page into the default model,
`sub_page` does NOT return a cursor bound to the newly allocated child
entity — the returned `Insert`'s id (the parent, 0) differs from the child
entity (1). -/
theorem sub_page_cursor_not_child :
    ¬ ((Model.default.register P0).sub_page P0).id
        = (Model.default.register P0).sub_page_child := by decide

/-- C1 (amended): `sub_page::<P>()` allocates a child page whose
`Meta.parent` is the former cursor's entity and appends the child to the
parent's hierarchy entry, but the returned `Insert` is still bound to the
same parent entity (the former cursor's id, not the child's), consuming
the former cursor by value. -/
theorem sub_page_cursor_stays_parent (c : Insert) (P : PageDef) :
    (c.sub_page P).id = c.id
    ∧ (c.sub_page P).model.pages[c.sub_page_child]?
        = some { P.meta with parent := some c.id }
    ∧ Model.sub_pages (c.sub_page P).model c.id
        = some ((Model.sub_pages c.model c.id).getD [] ++ [c.sub_page_child]) := by
  refine ⟨sub_page_id c P, ?_, ?_⟩
  · rw [sub_page_model_pages, Insert.sub_page_child]
    exact listGet?_append_len c.model.pages _ []
  · rw [Model.sub_pages, sub_page_model_sub_page_map, alookup_alistInsert_self]
    simp [Model.sub_pages, Insert.sub_page_child]

/-! ## C2: hierarchy round trip -/

/-- C2: after `register::<X>()` then `.sub_page::<Y>()` then
`.sub_page::<Z>()`, `sub_pages` of X's entity is exactly `[Y_id, Z_id]` in
that order, and the `Meta.parent` of both Y's and Z's page records is X's
entity. The hypothesis says X's fresh entity has no hierarchy entry yet,
which holds in every model whose hierarchy keys are live pages. -/
theorem hierarchy_round_trip (m : Model) (X Y Z : PageDef)
    (hx : alookup m.pages.length m.sub_page_map = none) :
    Model.sub_pages (((m.register X).sub_page Y).sub_page Z).model (m.register X).id
      = some [(m.register X).model.pages.length,
              ((m.register X).sub_page Y).model.pages.length]
    ∧ (((((m.register X).sub_page Y).sub_page Z).model.pages[
          (m.register X).model.pages.length]?).map Meta.parent)
        = some (some (m.register X).id)
    ∧ (((((m.register X).sub_page Y).sub_page Z).model.pages[
          ((m.register X).sub_page Y).model.pages.length]?).map Meta.parent)
        = some (some (m.register X).id) := by
  have hid1 : (m.register X).id = m.pages.length := register_id m X
  have hp1 : (m.register X).model.pages = m.pages ++ [X.meta] := register_model_pages m X
  have hs1 : (m.register X).model.sub_page_map = m.sub_page_map :=
    register_model_sub_page_map m X
  have hid2 : ((m.register X).sub_page Y).id = (m.register X).id :=
    sub_page_id (m.register X) Y
  have hp2 : ((m.register X).sub_page Y).model.pages
      = (m.register X).model.pages ++ [{ Y.meta with parent := some (m.register X).id }] :=
    sub_page_model_pages (m.register X) Y
  have hs2 : ((m.register X).sub_page Y).model.sub_page_map
      = alistInsert (m.register X).id
          ((alookup (m.register X).id (m.register X).model.sub_page_map).getD []
            ++ [(m.register X).model.pages.length])
          (m.register X).model.sub_page_map :=
    sub_page_model_sub_page_map (m.register X) Y
  have hp3 : (((m.register X).sub_page Y).sub_page Z).model.pages
      = ((m.register X).sub_page Y).model.pages
          ++ [{ Z.meta with parent := some ((m.register X).sub_page Y).id }] :=
    sub_page_model_pages ((m.register X).sub_page Y) Z
  have hs3 : (((m.register X).sub_page Y).sub_page Z).model.sub_page_map
      = alistInsert ((m.register X).sub_page Y).id
          ((alookup ((m.register X).sub_page Y).id
              ((m.register X).sub_page Y).model.sub_page_map).getD []
            ++ [((m.register X).sub_page Y).model.pages.length])
          ((m.register X).sub_page Y).model.sub_page_map :=
    sub_page_model_sub_page_map ((m.register X).sub_page Y) Z
  refine ⟨?_, ?_, ?_⟩
  · simp [Model.sub_pages, hs3, hs2, hs1, hid2, hid1, hx, hp2, hp1,
      alookup_alistInsert_self]
  · rw [hp3, hp2, hp1, listGet?_two_appends]
    simp
  · rw [hp3, hp2, hp1, listGet?_two_appends_snd]
    simp [hid2]

/-- C2 witness: the round trip at the default model with three concrete
page definitions; the children are entities 1 and 2. -/
theorem hierarchy_round_trip_witness :
    alookup Model.default.pages.length Model.default.sub_page_map = none
    ∧ Model.sub_pages (((Model.default.register P0).sub_page P0).sub_page P0).model
        (Model.default.register P0).id
        = some [(Model.default.register P0).model.pages.length,
                ((Model.default.register P0).sub_page P0).model.pages.length]
    ∧ Model.sub_pages (((Model.default.register P0).sub_page P0).sub_page P0).model
        (Model.default.register P0).id = some [1, 2] :=
  ⟨rfl, (hierarchy_round_trip Model.default P0 P0 P0 rfl).1, by decide⟩

/-! ## C3: search yields exactly the matching sections of content pages -/

/-- C3: for every model satisfying the content-liveness invariant and every
pattern, draining the search iterator yields exactly, in content-map order,
the pairs (page, section) where the page holds a content record and the
section's text matches the pattern; pages without a content record
contribute no pair. -/
theorem search_exact (m : Model) (rule : Pattern) (h : ModelInv m) :
    m.searchDrain rule = searchSpec m rule := by
  have hinit := iterInv_search h rule
  have hmain := @drainFuel_eq_specFrom m rule ((m.search rule).size + 1)
    (m.search rule) hinit (by omega)
  rw [Model.searchDrain, hmain]
  simp [specFrom, Model.search, matchedPairs, searchSpec]

/-- C3 witness: the spec's example — P1 without content, P2 with sections
"alpha" (entity 0) and "beta" (1), P3 with "alphabet" (2); searching the
`alpha` pattern yields exactly (P2, "alpha") and (P3, "alphabet"), i.e.
[(1, 0), (2, 2)], and nothing referencing P1 (entity 0). -/
theorem search_exact_witness :
    ModelInv exampleModel
    ∧ exampleModel.searchDrain patAlpha = searchSpec exampleModel patAlpha
    ∧ exampleModel.searchDrain patAlpha = [(1, 0), (2, 2)] :=
  ⟨by unfold ModelInv; decide,
    search_exact exampleModel patAlpha (by unfold ModelInv; decide), by decide⟩

/-! ## C4: `data_set` on a stale handle is a complete no-op -/

/-- C4: for an entity not present in the page registry, `data_set` returns
the model completely unchanged — nothing is inserted into the storage map
and no type-keyed entry is created (and there is no panic: the operation is
total). -/
theorem data_set_stale_noop (m : Model) (tid id v : Nat)
    (h : m.contains_item id = false) : m.data_set tid id v = m := by
  simp [Model.data_set, h]

/-- C4 witness: entity 7 is not in the empty registry and `data_set` leaves
the model untouched. -/
theorem data_set_stale_noop_witness :
    Model.default.contains_item 7 = false
    ∧ Model.default.data_set 5 7 42 = Model.default :=
  ⟨rfl, data_set_stale_noop Model.default 5 7 42 rfl⟩

/-! ## C5: resources are exactly-once singletons with visible mutation -/

/-- C5: registering the resource type `tid` twice is the same as
registering it once (the second call neither replaces nor duplicates the
first, for any default values), and a value written through `resource_mut`
is visible to every subsequent `resource` read. -/
theorem resource_register_exactly_once (m : Model) (tid d d' w v : Nat) :
    (m.resource_register tid d).resource_register tid d' = m.resource_register tid d
    ∧ (m.resource_mut tid = some w →
        (m.resource_mut_set tid v).resource tid = some v) := by
  constructor
  · cases hl : alookup tid m.resource_map with
    | some b =>
      have h1 : m.resource_register tid d = m := by
        simp [Model.resource_register, hl]
      rw [h1]
      simp [Model.resource_register, hl]
    | none =>
      have h1 : m.resource_register tid d
          = { m with resource_map := alistInsert tid ⟨tid, d⟩ m.resource_map } := by
        simp [Model.resource_register, hl]
      rw [h1]
      simp [Model.resource_register, alookup_alistInsert_self]
  · intro hw
    unfold Model.resource_mut at hw
    cases hl : alookup tid m.resource_map with
    | none => rw [hl] at hw; simp at hw
    | some b =>
      rw [hl] at hw
      have hty : b.tyid = tid := by
        by_contra hne
        simp [downcast, hne] at hw
      simp [Model.resource_mut_set, hl, hty, Model.resource,
        alookup_alistInsert_self, downcast]

/-- C5 witness: after registering type-id 4 with default 9, the second
registration is a no-op and writing 11 through `resource_mut` is read back
by `resource`. -/
theorem resource_register_exactly_once_witness :
    (Model.default.resource_register 4 9).resource_register 4 9
      = Model.default.resource_register 4 9
    ∧ ((Model.default.resource_register 4 9).resource_mut_set 4 11).resource 4
      = some 11 :=
  ⟨(resource_register_exactly_once Model.default 4 9 9 9 11).1,
    (resource_register_exactly_once (Model.default.resource_register 4 9) 4 9 9 9 11).2
      (by decide)⟩

/-! ## C6: the search iterator never yields again after exhaustion -/

/-- C6: the search iterator is not restartable — once a `next` call
returns the exhausted result, every subsequent `next` call (after any
number of further steps) returns the exhausted result again and never
yields another pair. -/
theorem search_not_restartable {m : Model} {rule : Pattern} {st st' : SearchIter}
    (h : SearchIter.next m rule st = .done st') (n : Nat) :
    SearchIter.next m rule ((SearchIter.advance m rule)^[n] st') = .done st' := by
  rw [Function.iterate_fixed (advance_fixed_of_done h) n]
  exact next_done_fix h

/-- C6 witness: an exhausted iterator state of the example model keeps
answering "done" after three further calls. -/
theorem search_not_restartable_witness :
    SearchIter.next exampleModel patAlpha
        ((SearchIter.advance exampleModel patAlpha)^[3] ⟨[], none, 0⟩)
      = .done ⟨[], none, 0⟩ :=
  search_not_restartable
    (show SearchIter.next exampleModel patAlpha ⟨[], none, 0⟩ = .done ⟨[], none, 0⟩
      from rfl) 3

/-! ## C7: per-entity data isolation -/

/-- C7: setting data of a type on page A is not observable through `data`
of the same type on a different page B (in either direction, as A and B
are arbitrary distinct entities). -/
theorem data_isolation (m : Model) (tid A B v : Nat) (hne : A ≠ B) :
    (m.data_set tid A v).data tid B = m.data tid B := by
  by_cases hc : m.contains_item A
  · have hB : ∀ l : List (Nat × AnyVal),
        alookup B (alistInsert A (⟨tid, v⟩ : AnyVal) l) = alookup B l :=
      fun l => alookup_alistInsert_ne hne _ l
    cases hs : alookup tid m.storage with
    | none =>
      simp [Model.data_set, hc, Model.data, hs, alookup_alistInsert_self, hB,
        alookup, hne]
    | some st =>
      simp [Model.data_set, hc, Model.data, hs, alookup_alistInsert_self, hB]
  · simp [Model.data_set, hc]

/-- C7 witness: writing type-6 data on page 0 of the example model does not
change what page 1 reports. -/
theorem data_isolation_witness :
    (0 : Nat) ≠ 1
    ∧ (exampleModel.data_set 6 0 33).data 6 1 = exampleModel.data 6 1 :=
  ⟨by decide, data_isolation exampleModel 6 0 1 33 (by decide)⟩

/-! ## C8: reads on stale handles return absence, never a failure -/

/-- C8: on a well-formed model, the read accessors `data`, `content` and
`sub_pages` applied to an entity outside the page registry return nothing,
and `resource` for a never-registered type-id returns nothing; all four
reads are total functions, so no hard failure is possible. -/
theorem reads_absence (m : Model) (hWF : KeysWF m) (id tid : Nat)
    (hid : m.pages.length ≤ id) (htid : alookup tid m.resource_map = none) :
    m.data tid id = none ∧ m.content id = none ∧ m.sub_pages id = none
    ∧ m.resource tid = none := by
  obtain ⟨hS, hC, hSub⟩ := hWF
  refine ⟨?_, ?_, ?_, ?_⟩
  · unfold Model.data
    cases hs : alookup tid m.storage with
    | none => simp
    | some st =>
      have hnone : alookup id st = none := by
        apply alookup_none_of_keys_lt _ hid
        intro p hp
        exact hS (tid, st) (mem_of_alookup_eq_some hs) p hp
      simp [hnone]
  · exact alookup_none_of_keys_lt hC hid
  · exact alookup_none_of_keys_lt hSub hid
  · simp [Model.resource, htid]

/-- C8 witness: entity 99 and type-id 9 are unknown to the example model;
every read answers with absence. -/
theorem reads_absence_witness :
    exampleModel.data 9 99 = none ∧ exampleModel.content 99 = none
    ∧ exampleModel.sub_pages 99 = none ∧ exampleModel.resource 9 = none :=
  reads_absence exampleModel (by unfold KeysWF; decide) 99 9 (by decide) (by decide)

/-! ## C9: search is deterministic on an unchanged model -/

/-- C9: two search iterators created by `search` from the same model state
with the same pattern yield, when driven the same number of steps, the
identical sequence of (page, section) pairs: the drain is a function of
the model state and the pattern alone. -/
theorem search_deterministic (m : Model) (rule : Pattern) (fuel : Nat)
    (s1 s2 : SearchIter) (h1 : s1 = m.search rule) (h2 : s2 = m.search rule) :
    drainFuel m rule fuel s1 = drainFuel m rule fuel s2 := by
  subst h1
  subst h2
  rfl

/-- C9 witness: two iterators over the example model drained with the same
fuel agree. -/
theorem search_deterministic_witness :
    drainFuel exampleModel patAlpha 10 (exampleModel.search patAlpha)
      = drainFuel exampleModel patAlpha 10 (exampleModel.search patAlpha) :=
  search_deterministic exampleModel patAlpha 10 _ _ rfl rfl

/-! ## C10: search never panics on models built by the core -/

/-- C10: on every model built only through `register`, `sub_page` and
`Insert::content` with freshly allocated (live) sections, the unchecked
section indexing inside `SearchIter::next` never hits a dead entity: the
whole drain of a search runs to exhaustion without a panic, for every
pattern and any amount of fuel. -/
theorem search_no_panic (m : Model) (hb : Built m) (rule : Pattern) (fuel : Nat) :
    drainTotal m rule fuel (m.search rule) = true :=
  drainTotal_of_inv fuel _ (iterInv_search (built_modelInv hb) rule)

/-- C10 witness: the example model is built by three registrations and its
search drains without panic. -/
theorem search_no_panic_witness :
    drainTotal exampleModel patAlpha 10 (exampleModel.search patAlpha) = true :=
  search_no_panic exampleModel
    (Built.reg _ P3d (Built.reg _ P2d (Built.reg _ P1d Built.base))) patAlpha 10

end Cosmic
